/-
Verification of the wolfkrow `SequenceTask` core
(src/src/wolfkrow/core/tasks/sequence_task.py).

The Python class is shallowly embedded: a `SequenceTask` instance becomes a
record of its fields, the stateful export methods become explicit
state-passing functions, Python exceptions become `Except`, and the abstract
base-class exporter (`Task.export_to_python_script`, whose source is not part
of this repository) is abstracted as a function parameter.  Machine integers
in the source are Python arbitrary-precision ints, so `Int` is the right
carrier with no overflow wrap.
-/
import Mathlib

namespace Wolfkrow

/-! ## Python value model

Attribute values flowing through the command-line exporter.  `pyRepr` models
Python `repr` on these values.  String values in this system contain no quote
characters, so `repr` of a string is modelled as wrapping in single quotes;
`repr` of an int is its decimal text, matching `toString : Int → String`. -/

inductive PyValue where
  | int (n : Int)
  | str (s : String)
  | list (xs : List PyValue)
  | set (xs : List PyValue)
  | dict (entries : List (PyValue × PyValue))
deriving Repr

mutual

def pyRepr : PyValue → String
  | .int n => toString n
  | .str s => "'" ++ s ++ "'"
  | .list xs => "[" ++ pyReprSeq xs ++ "]"
  | .set xs =>
      -- Python: repr(set()) is "set()", nonempty sets use braces.
      match xs with
      | [] => "set()"
      | _ => "\x7b" ++ pyReprSeq xs ++ "\x7d"
  | .dict es => "\x7b" ++ pyReprEntries es ++ "\x7d"

def pyReprSeq : List PyValue → String
  | [] => ""
  | [x] => pyRepr x
  | x :: xs => pyRepr x ++ ", " ++ pyReprSeq xs

def pyReprEntries : List (PyValue × PyValue) → String
  | [] => ""
  | [(k, v)] => pyRepr k ++ ": " ++ pyRepr v
  | (k, v) :: es => pyRepr k ++ ": " ++ pyRepr v ++ ", " ++ pyReprEntries es

end

/-- Python exceptions observable from the modelled code. -/
inductive PyErr where
  | taskValidationException (msg : String)
  | keyError (key : String)
deriving Repr, DecidableEq

/-- A `SequenceTask` instance: its own three declared attributes
(`start_frame`, `end_frame`, `chunk_size`, declared in this order in the
source) together with the inherited `Task` fields the exporters read
(`name`, `temp_dir`, `command_line_executable`,
`command_line_executable_args`).  The required int attributes are modelled
as already set (validation of required-ness lives in the absent base class). -/
structure SeqTask where
  name : String
  start_frame : Int
  end_frame : Int
  chunk_size : Int
  temp_dir : Option String
  command_line_executable : String
  command_line_executable_args : Option String
deriving Repr, DecidableEq

/-! ## validate -/

/-- Modelled from the spec: `Task.validate` (base class, source not in this
repository) checks that every `required` attribute resolves to a non-null
value.  The tasks modelled here always carry concrete `start_frame` and
`end_frame` values, so the base check succeeds. -/
def baseValidate (_ : SeqTask) : Except PyErr Unit := .ok ()

/-- `SequenceTask.validate`.  Note the two frame-range branches in the source
build their exception message with
`"... {start_frame} - {end_frame}".format(self.end_frame, self.start_frame)`:
`str.format` is given positional arguments but the format string uses the
named fields `\x7bstart_frame\x7d` and `\x7bend_frame\x7d`, so Python raises
`KeyError: 'start_frame'` while formatting, before the
`TaskValidationException` is ever constructed. -/
def validate (t : SeqTask) : Except PyErr Unit := do
  baseValidate t
  if t.chunk_size < 0 then
    throw (.taskValidationException "Chunk size must be a positive number")
  if t.end_frame < t.start_frame then
    throw (.keyError "start_frame")
  if t.end_frame < 0 ∨ t.start_frame < 0 then
    throw (.keyError "start_frame")
  return ()

/-! ## `__call__`: per-frame execution -/

/-- Outcome of one `self.run(frame)` call: a returned status code, or an
exception escaping `run`. -/
inductive RunResult where
  | ret (code : Int)
  | exc
deriving Repr, DecidableEq

/-- Observable events of a `__call__` invocation, in order. -/
inductive CallEvent where
  | setupCall
  | runCall (frame : Int)
deriving Repr, DecidableEq

/-- Python `range(s, e + 1)`: the integers `s, s+1, ..., e` in ascending
order (empty when `e < s`). -/
def pyRange (s e : Int) : List Int :=
  (List.range (e + 1 - s).toNat).map (fun i : Nat => s + (i : Int))

/-- The `for frame in range(...)` loop of `SequenceTask.__call__` together
with the surrounding `try`: `success` starts at 0 and is set to 1 on any
non-zero `run` result, failing frames are appended to `failed`, and an
exception from `run` makes the whole call return 1 immediately.  The event
list records each `run` invocation. -/
def callLoop (run : Int → RunResult) :
    List Int → Int → List Int → List CallEvent → Int × List Int × List CallEvent
  | [], success, failed, events => (success, failed, events)
  | f :: rest, success, failed, events =>
    match run f with
    | .exc => (1, failed, events ++ [.runCall f])
    | .ret r =>
      if r ≠ 0 then
        callLoop run rest 1 (failed ++ [f]) (events ++ [.runCall f])
      else
        callLoop run rest success failed (events ++ [.runCall f])

/-- `SequenceTask.__call__`: calls `setup()` (a preparation hook; no-op by
default, modelled as the first event), then runs the frame loop.  Returns
the status code, the `failed_frames` list, and the event trace. -/
def seqTaskCall (run : Int → RunResult) (t : SeqTask) :
    Int × List Int × List CallEvent :=
  callLoop run (pyRange t.start_frame t.end_frame) 0 [] [CallEvent.setupCall]

/-! ## Command-line export -/

/-- One entry of `self.task_attributes`: an attribute name together with its
resolved value on the instance (`attribute_obj.__get__(self)`, `none` for
Python `None`) and its `serialize` flag. -/
structure CmdAttr where
  name : String
  value : Option PyValue
  serialize : Bool
deriving Repr

/-- The `SequenceTask`-declared attributes, in declaration order
(`start_frame`, `end_frame`, `chunk_size`).  Modelled from the spec: the
`TaskAttribute` descriptor class is not in this repository; per the spec's
export contract these attributes are serialized, so `serialize` defaults to
`true`, and their resolved values are the instance's ints. -/
def seqAttrs (t : SeqTask) : List CmdAttr :=
  [⟨"start_frame", some (.int t.start_frame), true⟩,
   ⟨"end_frame", some (.int t.end_frame), true⟩,
   ⟨"chunk_size", some (.int t.chunk_size), true⟩]

/-- `self.task_attributes` for a `SequenceTask`: the attributes inherited
from the base `Task` class (whose declarations are not in this repository;
they are supplied as `base_attrs`) followed by the three `SequenceTask`
attributes. -/
def task_attributes (base_attrs : List CmdAttr) (t : SeqTask) : List CmdAttr :=
  base_attrs ++ seqAttrs t

/-- Python truthiness test `not self.temp_dir` for an optional string:
`None` and `""` are falsy. -/
def pyFalsy : Option String → Bool
  | none => true
  | some s => s = ""

/-- Python `self.command_line_executable_args or ""`. -/
def pyOrEmpty : Option String → String
  | none => ""
  | some s => s

/-- The deadline placeholder substitution of `export_to_command_line`:
when the deadline flag is set, the `start_frame` / `end_frame` values are
replaced by the literal token strings. -/
def deadlineValue (deadline : Bool) (attr_name : String) (v : PyValue) : PyValue :=
  if deadline ∧ attr_name = "start_frame" then .str "<STARTFRAME>"
  else if deadline ∧ attr_name = "end_frame" then .str "<ENDFRAME>"
  else v

/-- `type(value) in [list, set, dict]` from the source: such values are
converted to their `repr` string so that the final `repr` wraps them in
quotes as a whole. -/
def quoteContainers (v : PyValue) : PyValue :=
  match v with
  | .list _ => .str (pyRepr v)
  | .set _ => .str (pyRepr v)
  | .dict _ => .str (pyRepr v)
  | _ => v

/-- The `arg_str` accumulation loop of `export_to_command_line`: for each
attribute, skip it when `serialize is False` or its value is `None`;
otherwise apply the deadline substitution, the container-to-string
conversion, and append `" --{name} {repr(value)}"` (note the leading space
of the format string `"\x7barg_str\x7d --..."`). -/
def argStr (deadline : Bool) (attrs : List CmdAttr) : String :=
  attrs.foldl
    (fun acc a =>
      if a.serialize = false then acc
      else
        match a.value with
        | none => acc
        | some v =>
          acc ++ " --" ++ a.name ++ " "
            ++ pyRepr (quoteContainers (deadlineValue deadline a.name v)))
    ""

/-- `SequenceTask.export_to_command_line(self, temp_dir, deadline)`.
`task_type` stands for `self.__class__.__name__`.  The method first sets
`self.temp_dir` from the argument when it is falsy, then builds one command
string, and returns the `(self, command)` pair; the first component is the
post-call instance. -/
def export_to_command_line (base_attrs : List CmdAttr) (task_type : String)
    (t : SeqTask) (temp_dir : Option String) (deadline : Bool) :
    SeqTask × String :=
  let t := if pyFalsy t.temp_dir then { t with temp_dir := temp_dir } else t
  let arg_str := argStr deadline (task_attributes base_attrs t)
  let command :=
    t.command_line_executable ++ " " ++ pyOrEmpty t.command_line_executable_args
      ++ " --task_name " ++ task_type ++ " " ++ arg_str
  (t, command)

/-! ## Python-script export (the Chunking Engine) -/

/-- Result of `SequenceTask.export_to_python_script`: either the single
artifact of the delegated base-class export (the `chunk_size == 0` branch)
or the list of per-chunk artifacts. -/
inductive PyExport (α : Type) where
  | single (a : α)
  | multi (tasks : List α)
deriving Repr, DecidableEq

/-- Number of exported artifacts in a `PyExport`. -/
def PyExport.artifactCount : PyExport α → Nat
  | .single _ => 1
  | .multi l => l.length

/-- The loop-body mutation of `export_to_python_script`:
`self.start_frame = self.end_frame + 1`,
`self.end_frame = min(self.start_frame + self.chunk_size - 1, end_frame)`,
`self.name = "{name}_{start}-{end}"` (with the saved parent `name` and
`end_frame` passed as `name` / `E`). -/
def stepTask (name : String) (E : Int) (t : SeqTask) : SeqTask :=
  { t with
    start_frame := t.end_frame + 1,
    end_frame := min (t.end_frame + 1 + t.chunk_size - 1) E,
    name := name ++ "_" ++ toString (t.end_frame + 1)
      ++ "-" ++ toString (min (t.end_frame + 1 + t.chunk_size - 1) E) }

/-- The `while self.end_frame < end_frame` loop of
`export_to_python_script`.  `exportFn` abstracts
`Task.export_to_python_script(framed_task, job_name, temp_dir)` — the
base-class exporter, whose source is not in this repository — applied to the
cloned chunk (`framed_task = self.copy()` coincides with the updated
record).  On an exception from the per-chunk export the loop propagates the
error together with the instance state at that point (there is no `try` in
the source).  `fuel` bounds the iteration count; it is chosen large enough
that it never runs out when `chunk_size ≥ 1` (for `chunk_size < 0` the
Python loop does not terminate, a case outside every claim). -/
def exportLoop {ε α : Type} (exportFn : SeqTask → Except ε α)
    (name : String) (E : Int) :
    Nat → SeqTask → List α → Except (ε × SeqTask) (List α × SeqTask)
  | 0, t, acc => .ok (acc, t)
  | fuel + 1, t, acc =>
    if t.end_frame < E then
      match exportFn (stepTask name E t) with
      | .error err => .error (err, stepTask name E t)
      | .ok exported =>
        exportLoop exportFn name E fuel (stepTask name E t) (acc ++ [exported])
    else
      .ok (acc, t)

/-- `SequenceTask.export_to_python_script`.  When `chunk_size == 0` it
delegates to the base-class export on `self` unchanged; otherwise it saves
`start_frame` / `end_frame` / `name`, runs the chunk loop, and restores the
three fields before returning the list of exports.  The returned value pairs
the Python return value with the post-call instance; an uncaught per-chunk
exception carries the instance state at the raise point. -/
def export_to_python_script {ε α : Type} (exportFn : SeqTask → Except ε α)
    (t : SeqTask) : Except (ε × SeqTask) (PyExport α × SeqTask) :=
  if t.chunk_size = 0 then
    match exportFn t with
    | .error err => .error (err, t)
    | .ok exported => .ok (.single exported, t)
  else
    -- `start_frame` / `end_frame` / `name` are saved before the loop; the
    -- saved values are the reads of `t` below (the loop threads its own
    -- mutated copy of the instance).  `self.end_frame = start_frame - 1`
    -- seeds the cursor; the fuel bounds the loop's iterations.
    match exportLoop exportFn t.name t.end_frame
        (t.end_frame - (t.start_frame - 1)).toNat
        { t with end_frame := t.start_frame - 1 } [] with
    | .error (err, t') => .error (err, t')
    | .ok (tasks, t') =>
      .ok (.multi tasks,
           { t' with
             start_frame := t.start_frame,
             end_frame := t.end_frame,
             name := t.name })

/-- Closed form of the chunk the loop produces from cursor `c` at iteration
index `i` (template `tmpl` supplies the fields the loop never touches). -/
def chunkAt (tmpl : SeqTask) (name : String) (cs E c : Int) (i : Nat) : SeqTask :=
  { tmpl with
    start_frame := c + 1 + (i : Int) * cs,
    end_frame := min (c + 1 + (i : Int) * cs + cs - 1) E,
    name := name ++ "_" ++ toString (c + 1 + (i : Int) * cs)
      ++ "-" ++ toString (min (c + 1 + (i : Int) * cs + cs - 1) E) }

/-- Number of loop iterations from cursor `c`:
`⌈(E - c) / cs⌉` computed in `Nat`. -/
def cntFrom (cs E c : Int) : Nat :=
  ((E - c).toNat + cs.toNat - 1) / cs.toNat

/-- The `i`-th chunk of a task (0-based): sub-range
`[start_frame + i·chunk_size, min(start_frame + (i+1)·chunk_size - 1, end_frame)]`
with the suffixed name. -/
def mkChunk (t : SeqTask) (i : Nat) : SeqTask :=
  chunkAt t t.name t.chunk_size t.end_frame (t.start_frame - 1) i

/-- Number of chunks of a task: `⌈(end_frame - start_frame + 1) / chunk_size⌉`. -/
def numChunks (t : SeqTask) : Nat :=
  ((t.end_frame - t.start_frame + 1).toNat + t.chunk_size.toNat - 1) / t.chunk_size.toNat

/-- Decidable equality for `Except`, so concrete runs of the fallible
operations can be checked by `decide`. -/
instance {ε α : Type} [DecidableEq ε] [DecidableEq α] : DecidableEq (Except ε α) :=
  fun x y =>
    match x, y with
    | .ok a, .ok b =>
      if h : a = b then .isTrue (by rw [h])
      else .isFalse (fun hc => h (by injection hc))
    | .error a, .error b =>
      if h : a = b then .isTrue (by rw [h])
      else .isFalse (fun hc => h (by injection hc))
    | .ok _, .error _ => .isFalse (fun hc => Except.noConfusion hc)
    | .error _, .ok _ => .isFalse (fun hc => Except.noConfusion hc)

/-! ## Concrete sample inputs

The scenario used by the repository's tests and by the spec's concrete
examples: `start_frame=10`, `end_frame=25`, `chunk_size=8` (the `chunk_size`
is the declared default of the `chunk_size` attribute). -/

/-- The test scenario task
(`TestSequence(name="Task1", start_frame=10, end_frame=25, ...)`). -/
def sampleTask : SeqTask :=
  { name := "Task1", start_frame := 10, end_frame := 25, chunk_size := 8,
    temp_dir := some "./test_temp", command_line_executable := "test",
    command_line_executable_args := none }

/-- Modelled from the spec: the attributes inherited from the base `Task`
class are not declared in this repository; the spec lists `name` among them
and the exported command serializes it, so one representative serialized
base attribute is used for concrete runs. -/
def sampleBaseAttrs : List CmdAttr :=
  [⟨"name", some (.str "Task1"), true⟩]

/-- A `run` implementation failing (non-zero status) exactly on frames 12
and 19, the concrete scenario of the spec. -/
def sampleRun : Int → RunResult :=
  fun f => if f = 12 ∨ f = 19 then .ret 1 else .ret 0

/-- Inverted frame range (`end_frame < start_frame`). -/
def invalidRangeTask : SeqTask := { sampleTask with start_frame := 5, end_frame := 3 }

/-- Negative frame bounds (with `start_frame ≤ end_frame`). -/
def negativeRangeTask : SeqTask := { sampleTask with start_frame := -5, end_frame := -3 }

/-- Negative chunk size. -/
def negativeChunkTask : SeqTask := { sampleTask with chunk_size := -1 }

/-- A base-class script exporter that always succeeds, recording the
exported chunk's name as the artifact. -/
def exportNameFn : SeqTask → Except Unit String := fun c => .ok c.name

/-- A base-class script exporter that raises on the chunk starting at
frame 18 (the second chunk of the sample scenario). -/
def exportFailAt18Fn : SeqTask → Except Unit String :=
  fun c => if c.start_frame = 18 then .error () else .ok c.name

/-- The sample task with an unset scratch directory. -/
def noTempDirTask : SeqTask := { sampleTask with temp_dir := none }

/-- The sample task with chunking disabled (`chunk_size = 0`). -/
def zeroChunkTask : SeqTask := { sampleTask with chunk_size := 0 }

/-! ## Spec-side descriptions of the exported command

These definitions restate, following the spec's words, what the command
string is claimed to look like; the theorems below compare them with the
`export_to_command_line` translated from the source. -/

/-- The `--{attributeName} {quotedValue}` pairs: one per declared attribute
with `serialize == true` and a non-null resolved value, in declaration
order, with the deadline substitution and the container-to-`repr`
conversion applied to the value before the final `repr`. -/
def cmdPairs (deadline : Bool) (attrs : List CmdAttr) : List String :=
  attrs.filterMap (fun a =>
    if a.serialize then
      a.value.map (fun v =>
        "--" ++ a.name ++ " "
          ++ pyRepr (quoteContainers (deadlineValue deadline a.name v)))
    else none)

/-- How the source's `arg_str` actually joins the pairs: each pair is
preceded by one space (so a nonempty pair list yields a leading space). -/
def joinPairs : List String → String
  | [] => ""
  | p :: ps => " " ++ p ++ joinPairs ps

/-- The claim's "space-joined" pairs: single spaces between pairs, no
leading space. -/
def spaceJoin : List String → String
  | [] => ""
  | [p] => p
  | p :: ps => p ++ " " ++ spaceJoin ps

/-- The command string exactly as the claim words it:
`"{executable} {executableArgs} --task_name {taskTypeName} {serializedArgs}"`
with `serializedArgs` the space-joined pairs. -/
def claimedCommand (base_attrs : List CmdAttr) (task_type : String)
    (t : SeqTask) (deadline : Bool) : String :=
  t.command_line_executable ++ " " ++ pyOrEmpty t.command_line_executable_args
    ++ " --task_name " ++ task_type ++ " "
    ++ spaceJoin (cmdPairs deadline (task_attributes base_attrs t))

/-! ## Lemmas about the `__call__` loop -/

lemma callLoop_events_prefix (run : Int → RunResult) :
    ∀ (l : List Int) (s : Int) (f : List Int) (ev : List CallEvent),
      ∃ tail, (callLoop run l s f ev).2.2 = ev ++ tail := by
  intro l
  induction l with
  | nil => intro s f ev; exact ⟨[], by simp [callLoop]⟩
  | cons x rest ih =>
    intro s f ev
    simp only [callLoop]
    cases hx : run x with
    | exc => exact ⟨[.runCall x], rfl⟩
    | ret r =>
      by_cases hr : r ≠ 0
      · simp only [if_pos hr]
        obtain ⟨tail, ht⟩ := ih 1 (f ++ [x]) (ev ++ [.runCall x])
        exact ⟨.runCall x :: tail, by rw [ht]; simp⟩
      · simp only [if_neg hr]
        obtain ⟨tail, ht⟩ := ih s f (ev ++ [.runCall x])
        exact ⟨.runCall x :: tail, by rw [ht]; simp⟩

lemma callLoop_eq_zero_iff (run : Int → RunResult) :
    ∀ (l : List Int) (s : Int) (f : List Int) (ev : List CallEvent),
      (callLoop run l s f ev).1 = 0 ↔ (s = 0 ∧ ∀ x ∈ l, run x = .ret 0) := by
  intro l
  induction l with
  | nil => intro s f ev; simp [callLoop]
  | cons x rest ih =>
    intro s f ev
    simp only [callLoop]
    cases hx : run x with
    | exc =>
      simp only []
      constructor
      · intro h; exact absurd h (by norm_num)
      · rintro ⟨-, hall⟩
        have := hall x (by simp)
        rw [hx] at this
        exact absurd this (by simp)
    | ret r =>
      by_cases hr : r ≠ 0
      · simp only [if_pos hr]
        rw [ih]
        constructor
        · rintro ⟨h1, -⟩; exact absurd h1 (by norm_num)
        · rintro ⟨-, hall⟩
          have := hall x (by simp)
          rw [hx] at this
          exact absurd (by injection this) hr
      · push_neg at hr
        subst hr
        simp only [ne_eq, not_true_eq_false, if_false]
        rw [ih]
        constructor
        · rintro ⟨h1, h2⟩
          refine ⟨h1, ?_⟩
          intro y hy
          rcases List.mem_cons.mp hy with h | h
          · subst h; exact hx
          · exact h2 y h
        · rintro ⟨h1, h2⟩
          exact ⟨h1, fun y hy => h2 y (List.mem_cons_of_mem _ hy)⟩

lemma callLoop_res_cases (run : Int → RunResult) :
    ∀ (l : List Int) (s : Int) (f : List Int) (ev : List CallEvent),
      (callLoop run l s f ev).1 = s ∨ (callLoop run l s f ev).1 = 1 := by
  intro l
  induction l with
  | nil => intro s f ev; exact .inl rfl
  | cons x rest ih =>
    intro s f ev
    simp only [callLoop]
    cases hx : run x with
    | exc => exact .inr rfl
    | ret r =>
      by_cases hr : r ≠ 0
      · simp only [if_pos hr]
        rcases ih 1 (f ++ [x]) (ev ++ [.runCall x]) with h | h
        · exact .inr h
        · exact .inr h
      · simp only [if_neg hr]
        exact ih s f (ev ++ [.runCall x])

lemma callLoop_no_exc (run : Int → RunResult) :
    ∀ (l : List Int) (s : Int) (f : List Int) (ev : List CallEvent),
      (∀ x ∈ l, run x ≠ RunResult.exc) →
      (callLoop run l s f ev).2.2 = ev ++ l.map CallEvent.runCall
      ∧ (callLoop run l s f ev).2.1
          = f ++ l.filter (fun x => decide (run x ≠ RunResult.ret 0)) := by
  intro l
  induction l with
  | nil => intro s f ev _; simp [callLoop]
  | cons x rest ih =>
    intro s f ev hne
    simp only [callLoop]
    cases hx : run x with
    | exc => exact absurd hx (hne x (by simp))
    | ret r =>
      have hrest : ∀ y ∈ rest, run y ≠ RunResult.exc :=
        fun y hy => hne y (List.mem_cons_of_mem _ hy)
      by_cases hr : r ≠ 0
      · simp only [if_pos hr]
        obtain ⟨h1, h2⟩ := ih 1 (f ++ [x]) (ev ++ [.runCall x]) hrest
        refine ⟨by rw [h1]; simp, ?_⟩
        rw [h2]
        have hfil : (x :: rest).filter (fun y => decide (run y ≠ RunResult.ret 0))
            = x :: rest.filter (fun y => decide (run y ≠ RunResult.ret 0)) := by
          simp only [List.filter_cons]
          rw [if_pos]
          simp only [hx, decide_eq_true_eq]
          intro hc
          exact hr (by injection hc)
        rw [hfil]
        simp
      · push_neg at hr
        subst hr
        simp only [ne_eq, not_true_eq_false, if_false]
        obtain ⟨h1, h2⟩ := ih s f (ev ++ [.runCall x]) hrest
        refine ⟨by rw [h1]; simp, ?_⟩
        rw [h2]
        have hfil : (x :: rest).filter (fun y => decide (run y ≠ RunResult.ret 0))
            = rest.filter (fun y => decide (run y ≠ RunResult.ret 0)) := by
          simp only [List.filter_cons]
          rw [if_neg]
          simp [hx]
        rw [hfil]

lemma pyRange_pairwise (s e : Int) : (pyRange s e).Pairwise (· < ·) := by
  rw [pyRange, List.pairwise_map]
  refine (List.pairwise_lt_range _).imp ?_
  intro a b h
  have : (a : Int) < (b : Int) := by exact_mod_cast h
  exact add_lt_add_left this s

/-! ## Claim theorems: validation and execution -/

/-- C3: `validate()` on a `SequenceTask` is claimed to raise a
`TaskValidationException` for an inverted frame range, for negative frame
bounds, and for a negative chunk size.  The negative-chunk-size branch does
raise it, but for the two frame-range branches the code raises
`KeyError('start_frame')` instead: the exception message is built with
`str.format` using named placeholders and positional arguments, which
raises before the `TaskValidationException` is constructed.  This theorem
evaluates `validate` at the failing inputs. -/
theorem claim_C3_validate_error_kinds :
    validate invalidRangeTask = .error (.keyError "start_frame")
    ∧ (∀ msg : String,
        validate invalidRangeTask ≠ .error (.taskValidationException msg))
    ∧ validate negativeRangeTask = .error (.keyError "start_frame")
    ∧ (∀ msg : String,
        validate negativeRangeTask ≠ .error (.taskValidationException msg))
    ∧ validate negativeChunkTask
        = .error (.taskValidationException "Chunk size must be a positive number")
    ∧ validate sampleTask = .ok () := by
  refine ⟨rfl, ?_, rfl, ?_, rfl, rfl⟩
  · intro msg h
    rw [show validate invalidRangeTask = .error (.keyError "start_frame") from rfl] at h
    simp at h
  · intro msg h
    rw [show validate negativeRangeTask = .error (.keyError "start_frame") from rfl] at h
    simp at h

/-- C6: `__call__` first calls `setup()`, then (absent exceptions) invokes
`run` once per frame of `[start_frame, end_frame]` in ascending order,
collects exactly the frames whose `run` result was non-zero, returns `0`
iff every frame returned `0`, and converts an exception from `run` into the
return value `1` instead of propagating it. -/
theorem claim_C6_call_semantics (run : Int → RunResult) (t : SeqTask) :
    (∃ tail, (seqTaskCall run t).2.2 = CallEvent.setupCall :: tail)
    ∧ ((∀ x ∈ pyRange t.start_frame t.end_frame, run x ≠ RunResult.exc) →
        (seqTaskCall run t).2.2
            = CallEvent.setupCall
                :: (pyRange t.start_frame t.end_frame).map CallEvent.runCall
        ∧ (seqTaskCall run t).2.1
            = (pyRange t.start_frame t.end_frame).filter
                (fun x => decide (run x ≠ RunResult.ret 0)))
    ∧ (pyRange t.start_frame t.end_frame).Pairwise (· < ·)
    ∧ ((seqTaskCall run t).1 = 0
        ↔ ∀ x ∈ pyRange t.start_frame t.end_frame, run x = RunResult.ret 0)
    ∧ ((∃ x ∈ pyRange t.start_frame t.end_frame, run x = RunResult.exc) →
        (seqTaskCall run t).1 = 1) := by
  refine ⟨?_, ?_, pyRange_pairwise _ _, ?_, ?_⟩
  · obtain ⟨tail, ht⟩ := callLoop_events_prefix run
      (pyRange t.start_frame t.end_frame) 0 [] [CallEvent.setupCall]
    exact ⟨tail, by simpa [seqTaskCall] using ht⟩
  · intro hne
    obtain ⟨h1, h2⟩ := callLoop_no_exc run
      (pyRange t.start_frame t.end_frame) 0 [] [CallEvent.setupCall] hne
    exact ⟨by simpa [seqTaskCall] using h1, by simpa [seqTaskCall] using h2⟩
  · rw [seqTaskCall, callLoop_eq_zero_iff]
    simp
  · rintro ⟨x, hx, hexc⟩
    have hz := callLoop_eq_zero_iff run
      (pyRange t.start_frame t.end_frame) 0 [] [CallEvent.setupCall]
    have hc := callLoop_res_cases run
      (pyRange t.start_frame t.end_frame) 0 [] [CallEvent.setupCall]
    rcases hc with h | h
    · exfalso
      have := (hz.mp (by simpa [seqTaskCall] using h)).2 x hx
      rw [hexc] at this
      exact absurd this (by simp)
    · simpa [seqTaskCall] using h

/-- Witness for C6 at the spec's concrete scenario: frames 10–25 with `run`
failing exactly on 12 and 19. -/
theorem claim_C6_call_semantics_witness :
    (∃ tail, (seqTaskCall sampleRun sampleTask).2.2 = CallEvent.setupCall :: tail)
    ∧ ((∀ x ∈ pyRange sampleTask.start_frame sampleTask.end_frame,
          sampleRun x ≠ RunResult.exc) →
        (seqTaskCall sampleRun sampleTask).2.2
            = CallEvent.setupCall
                :: (pyRange sampleTask.start_frame sampleTask.end_frame).map
                  CallEvent.runCall
        ∧ (seqTaskCall sampleRun sampleTask).2.1
            = (pyRange sampleTask.start_frame sampleTask.end_frame).filter
                (fun x => decide (sampleRun x ≠ RunResult.ret 0)))
    ∧ (pyRange sampleTask.start_frame sampleTask.end_frame).Pairwise (· < ·)
    ∧ ((seqTaskCall sampleRun sampleTask).1 = 0
        ↔ ∀ x ∈ pyRange sampleTask.start_frame sampleTask.end_frame,
            sampleRun x = RunResult.ret 0)
    ∧ ((∃ x ∈ pyRange sampleTask.start_frame sampleTask.end_frame,
          sampleRun x = RunResult.exc) →
        (seqTaskCall sampleRun sampleTask).1 = 1) :=
  claim_C6_call_semantics sampleRun sampleTask

/-! ## Lemmas about the command-line exporter -/

/-- Re-associate one string-literal merge: `a ++ (b ++ s) = c ++ s`
whenever `a ++ b = c` (used with literal `a`, `b`, `c` and `h := rfl`). -/
lemma strMerge {a b c : String} (h : a ++ b = c) (s : String) :
    a ++ (b ++ s) = c ++ s := by
  rw [← String.append_assoc, h]

lemma argStr_eq (deadline : Bool) (attrs : List CmdAttr) :
    argStr deadline attrs = joinPairs (cmdPairs deadline attrs) := by
  suffices h : ∀ (l : List CmdAttr) (acc : String),
      l.foldl
        (fun acc a =>
          if a.serialize = false then acc
          else
            match a.value with
            | none => acc
            | some v =>
              acc ++ " --" ++ a.name ++ " "
                ++ pyRepr (quoteContainers (deadlineValue deadline a.name v)))
        acc
      = acc ++ joinPairs (cmdPairs deadline l) by
    simpa [argStr] using h attrs ""
  intro l
  induction l with
  | nil => intro acc; simp [cmdPairs, joinPairs]
  | cons a rest ih =>
    intro acc
    simp only [List.foldl_cons]
    by_cases hs : a.serialize = false
    · rw [if_pos hs, ih]
      have : cmdPairs deadline (a :: rest) = cmdPairs deadline rest := by
        simp [cmdPairs, List.filterMap_cons, hs]
      rw [this]
    · rw [if_neg hs]
      have hstrue : a.serialize = true := by
        revert hs; cases a.serialize <;> simp
      cases hv : a.value with
      | none =>
        rw [ih]
        have : cmdPairs deadline (a :: rest) = cmdPairs deadline rest := by
          simp [cmdPairs, List.filterMap_cons, hstrue, hv]
        rw [this]
      | some v =>
        rw [ih]
        have : cmdPairs deadline (a :: rest)
            = ("--" ++ a.name ++ " "
                ++ pyRepr (quoteContainers (deadlineValue deadline a.name v)))
              :: cmdPairs deadline rest := by
          simp [cmdPairs, List.filterMap_cons, hstrue, hv]
        rw [this, joinPairs]
        simp only [String.append_assoc]
        rw [strMerge (show (" " ++ "--" : String) = " --" from rfl)]

lemma joinPairs_append (l1 l2 : List String) :
    joinPairs (l1 ++ l2) = joinPairs l1 ++ joinPairs l2 := by
  induction l1 with
  | nil => simp [joinPairs]
  | cons p ps ih => simp [joinPairs, ih, String.append_assoc]

lemma joinPairs_eq_spaceJoin (ps : List String) :
    joinPairs ps = if ps = [] then "" else " " ++ spaceJoin ps := by
  induction ps with
  | nil => simp [joinPairs]
  | cons p qs ih =>
    cases qs with
    | nil => simp [joinPairs, spaceJoin]
    | cons q rs =>
      rw [joinPairs, ih, if_neg (by simp), if_neg (by simp),
        show spaceJoin (p :: q :: rs) = p ++ " " ++ spaceJoin (q :: rs) from rfl]
      simp [String.append_assoc]

/-- The post-mutation instance agrees with the original on every field the
command string reads, so the command can be described from the original. -/
lemma export_to_command_line_command (base_attrs : List CmdAttr)
    (task_type : String) (t : SeqTask) (temp_dir : Option String)
    (deadline : Bool) :
    (export_to_command_line base_attrs task_type t temp_dir deadline).2
      = t.command_line_executable ++ " "
          ++ pyOrEmpty t.command_line_executable_args
          ++ " --task_name " ++ task_type ++ " "
          ++ joinPairs (cmdPairs deadline (task_attributes base_attrs t)) := by
  rw [export_to_command_line]
  by_cases h : pyFalsy t.temp_dir
  · simp [h, argStr_eq, task_attributes, seqAttrs]
  · simp [eq_false_intro h, argStr_eq]

/-- The pairs contributed by the three `SequenceTask` attributes in
non-placeholder mode. -/
lemma cmdPairs_seqAttrs_concrete (t : SeqTask) :
    cmdPairs false (seqAttrs t)
      = ["--start_frame " ++ toString t.start_frame,
         "--end_frame " ++ toString t.end_frame,
         "--chunk_size " ++ toString t.chunk_size] := by
  simp [cmdPairs, seqAttrs, List.filterMap_cons, deadlineValue, quoteContainers, pyRepr]

/-- The pairs contributed by the three `SequenceTask` attributes in
placeholder (deadline) mode: the frame values collapse to the quoted
tokens. -/
lemma cmdPairs_seqAttrs_deadline (t : SeqTask) :
    cmdPairs true (seqAttrs t)
      = ["--start_frame '<STARTFRAME>'",
         "--end_frame '<ENDFRAME>'",
         "--chunk_size " ++ toString t.chunk_size] := by
  simp [cmdPairs, seqAttrs, List.filterMap_cons, deadlineValue, quoteContainers, pyRepr]

/-! ## Claim theorems: command-line export -/

/-- C7 (amended): the command string equals the claimed template except
that the source's `arg_str` carries one extra leading space: each
`--{attributeName} {quotedValue}` pair is preceded by a space, so the first
pair is separated from `{taskTypeName}` by two spaces.  The pairs appear in
attribute-declaration order, exactly for the attributes with
`serialize == true` and a non-null value, and a list/set/dict value is
rendered as its `repr` text and then quoted as a whole. -/
theorem claim_C7_command_template (base_attrs : List CmdAttr)
    (task_type : String) (t : SeqTask) (temp_dir : Option String)
    (deadline : Bool) :
    (export_to_command_line base_attrs task_type t temp_dir deadline).2
      = t.command_line_executable ++ " "
          ++ pyOrEmpty t.command_line_executable_args
          ++ " --task_name " ++ task_type ++ " "
          ++ joinPairs (cmdPairs deadline (task_attributes base_attrs t))
    ∧ (∀ ps : List String,
        joinPairs ps = if ps = [] then "" else " " ++ spaceJoin ps)
    ∧ (∀ xs : List PyValue,
        pyRepr (quoteContainers (.list xs)) = "'" ++ pyRepr (.list xs) ++ "'")
    ∧ (∀ xs : List PyValue,
        pyRepr (quoteContainers (.set xs)) = "'" ++ pyRepr (.set xs) ++ "'")
    ∧ (∀ es : List (PyValue × PyValue),
        pyRepr (quoteContainers (.dict es)) = "'" ++ pyRepr (.dict es) ++ "'") :=
  ⟨export_to_command_line_command base_attrs task_type t temp_dir deadline,
   joinPairs_eq_spaceJoin,
   fun _ => rfl, fun _ => rfl, fun _ => rfl⟩

set_option maxRecDepth 8000 in
/-- Counterexample for C7 as stated: at the test scenario the actual
command has two spaces before the first pair, so it differs from the
claimed template (space-joined pairs after a single space). -/
theorem claim_C7_counterexample :
    (export_to_command_line sampleBaseAttrs "TestSequence" sampleTask none false).2
      = "test  --task_name TestSequence  --name 'Task1' --start_frame 10 --end_frame 25 --chunk_size 8"
    ∧ claimedCommand sampleBaseAttrs "TestSequence" sampleTask false
      = "test  --task_name TestSequence --name 'Task1' --start_frame 10 --end_frame 25 --chunk_size 8"
    ∧ (export_to_command_line sampleBaseAttrs "TestSequence" sampleTask none false).2
      ≠ claimedCommand sampleBaseAttrs "TestSequence" sampleTask false := by
  refine ⟨by decide, by decide, by decide⟩

/-- C2 (amended): in non-placeholder mode `export_to_command_line` performs
no chunking: it returns a single `(self, command)` pair whose command
carries the instance's full-range concrete `start_frame` / `end_frame`
(and `chunk_size`) values. -/
theorem claim_C2_no_chunking (base_attrs : List CmdAttr) (task_type : String)
    (t : SeqTask) (temp_dir : Option String) :
    ∃ pre : String,
      (export_to_command_line base_attrs task_type t temp_dir false).2
        = pre ++ " --start_frame " ++ toString t.start_frame
            ++ " --end_frame " ++ toString t.end_frame
            ++ " --chunk_size " ++ toString t.chunk_size := by
  refine ⟨t.command_line_executable ++ " "
      ++ pyOrEmpty t.command_line_executable_args
      ++ " --task_name " ++ task_type ++ " "
      ++ joinPairs (cmdPairs false base_attrs), ?_⟩
  rw [export_to_command_line_command, task_attributes, cmdPairs,
    List.filterMap_append, joinPairs_append]
  rw [show (List.filterMap _ (seqAttrs t) : List String) = cmdPairs false (seqAttrs t) from rfl,
    cmdPairs_seqAttrs_concrete]
  simp only [joinPairs, String.append_assoc]
  rw [strMerge (show (" " ++ "--start_frame " : String) = " --start_frame " from rfl),
    strMerge (show (" " ++ "--end_frame " : String) = " --end_frame " from rfl),
    strMerge (show (" " ++ "--chunk_size " : String) = " --chunk_size " from rfl)]
  simp [cmdPairs, String.append_assoc]

set_option maxRecDepth 8000 in
/-- Counterexample for C2 as stated: at `start_frame=10`, `end_frame=25`,
`chunk_size=8` the non-placeholder export yields ONE `(self, command)` pair
whose command covers the full range 10–25 (the substring
`--end_frame 25` occurs, `--end_frame 17` does not); no `[10,17]` /
`[18,25]` pair of commands is produced. -/
theorem claim_C2_counterexample :
    (export_to_command_line sampleBaseAttrs "TestSequence" sampleTask none false)
      = (sampleTask,
         "test  --task_name TestSequence  --name 'Task1' --start_frame 10 --end_frame 25 --chunk_size 8")
    ∧ List.IsInfix "--end_frame 25".data
        (export_to_command_line sampleBaseAttrs "TestSequence" sampleTask none false).2.data
    ∧ ¬ List.IsInfix "--end_frame 17".data
        (export_to_command_line sampleBaseAttrs "TestSequence" sampleTask none false).2.data := by
  refine ⟨by decide, by decide, by decide⟩

/-- C4 (amended): placeholder (deadline) mode yields exactly one
`(self, command)` pair regardless of `chunk_size`, and the frame attributes
are serialized as the `repr`-quoted tokens `'<STARTFRAME>'` /
`'<ENDFRAME>'` (with `--chunk_size` following them), so the command does
not end with the bare substring `<STARTFRAME> <ENDFRAME>`. -/
theorem claim_C4_placeholder_mode (base_attrs : List CmdAttr)
    (task_type : String) (t : SeqTask) (temp_dir : Option String) :
    ∃ pre : String,
      (export_to_command_line base_attrs task_type t temp_dir true).2
        = pre ++ " --start_frame '<STARTFRAME>' --end_frame '<ENDFRAME>'"
            ++ " --chunk_size " ++ toString t.chunk_size := by
  refine ⟨t.command_line_executable ++ " "
      ++ pyOrEmpty t.command_line_executable_args
      ++ " --task_name " ++ task_type ++ " "
      ++ joinPairs (cmdPairs true base_attrs), ?_⟩
  rw [export_to_command_line_command, task_attributes, cmdPairs,
    List.filterMap_append, joinPairs_append]
  rw [show (List.filterMap _ (seqAttrs t) : List String) = cmdPairs true (seqAttrs t) from rfl,
    cmdPairs_seqAttrs_deadline]
  simp only [joinPairs, String.append_assoc]
  rw [strMerge
      (show (" " ++ "--start_frame '<STARTFRAME>'" : String)
        = " --start_frame '<STARTFRAME>'" from rfl),
    strMerge
      (show (" " ++ "--end_frame '<ENDFRAME>'" : String)
        = " --end_frame '<ENDFRAME>'" from rfl),
    strMerge (show (" " ++ "--chunk_size " : String) = " --chunk_size " from rfl),
    strMerge
      (show (" --start_frame '<STARTFRAME>'" ++ " --end_frame '<ENDFRAME>'" : String)
        = " --start_frame '<STARTFRAME>' --end_frame '<ENDFRAME>'" from rfl)]
  simp [cmdPairs, String.append_assoc]

set_option maxRecDepth 8000 in
/-- Counterexample for C4 as stated: at the test scenario the deadline-mode
command ends with `--chunk_size 8` and carries the tokens only in
`repr`-quoted form, so it does not end with the exact substring
`<STARTFRAME> <ENDFRAME>`. -/
theorem claim_C4_counterexample :
    (export_to_command_line sampleBaseAttrs "TestSequence" sampleTask none true).2
      = "test  --task_name TestSequence  --name 'Task1' --start_frame '<STARTFRAME>' --end_frame '<ENDFRAME>' --chunk_size 8"
    ∧ ¬ List.IsSuffix "<STARTFRAME> <ENDFRAME>".data
        (export_to_command_line sampleBaseAttrs "TestSequence" sampleTask none true).2.data
    ∧ ¬ List.IsInfix "<STARTFRAME> <ENDFRAME>".data
        (export_to_command_line sampleBaseAttrs "TestSequence" sampleTask none true).2.data := by
  refine ⟨by decide, by decide, by decide⟩

/-- C8 (amended): `export_to_command_line` is not temp_dir-pure: when the
instance's `temp_dir` is falsy (`None` or `""`) the call sets it to the
`temp_dir` argument; otherwise the instance is returned unchanged.  No
other field is ever modified. -/
theorem claim_C8_tempdir_effect (base_attrs : List CmdAttr)
    (task_type : String) (t : SeqTask) (temp_dir : Option String)
    (deadline : Bool) :
    (pyFalsy t.temp_dir = false →
      (export_to_command_line base_attrs task_type t temp_dir deadline).1 = t)
    ∧ (pyFalsy t.temp_dir = true →
      (export_to_command_line base_attrs task_type t temp_dir deadline).1
        = { t with temp_dir := temp_dir }) := by
  constructor
  · intro h
    simp [export_to_command_line, h]
  · intro h
    simp [export_to_command_line, h]

/-- Witness for C8 (amended) at a concrete falsy-`temp_dir` instance. -/
theorem claim_C8_tempdir_effect_witness :
    (pyFalsy noTempDirTask.temp_dir = false →
      (export_to_command_line sampleBaseAttrs "TestSequence" noTempDirTask
        (some "/tmp/x") false).1 = noTempDirTask)
    ∧ (pyFalsy noTempDirTask.temp_dir = true →
      (export_to_command_line sampleBaseAttrs "TestSequence" noTempDirTask
        (some "/tmp/x") false).1
        = { noTempDirTask with temp_dir := some "/tmp/x" }) :=
  claim_C8_tempdir_effect sampleBaseAttrs "TestSequence" noTempDirTask
    (some "/tmp/x") false

/-- Counterexample for C8 as stated: with an unset `temp_dir` the call
mutates the instance's `temp_dir` field to the argument. -/
theorem claim_C8_counterexample :
    (export_to_command_line sampleBaseAttrs "TestSequence" noTempDirTask
        (some "/tmp/x") false).1 ≠ noTempDirTask
    ∧ (export_to_command_line sampleBaseAttrs "TestSequence" noTempDirTask
        (some "/tmp/x") false).1.temp_dir = some "/tmp/x"
    ∧ noTempDirTask.temp_dir = none := by
  refine ⟨by decide, by decide, by decide⟩

/-! ## Lemmas about the chunk loop -/

lemma cntFrom_eq_succ (cs E c : Int) (hcs : 1 ≤ cs) (h : c < E) :
    cntFrom cs E c = ((E - c).toNat - 1) / cs.toNat + 1 := by
  have hk : 0 < cs.toNat := by omega
  have heq : (E - c).toNat + cs.toNat - 1 = ((E - c).toNat - 1) + cs.toNat := by omega
  rw [cntFrom, heq, Nat.add_div_right _ hk]

lemma cntFrom_zero (cs E c : Int) (hcs : 1 ≤ cs) (h : ¬ c < E) : cntFrom cs E c = 0 := by
  have h0 : (E - c).toNat = 0 := by omega
  rw [cntFrom, h0]
  exact Nat.div_eq_of_lt (by omega)

lemma cntFrom_one (cs E c : Int) (hcs : 1 ≤ cs) (h1 : c < E) (h2 : E ≤ c + cs) :
    cntFrom cs E c = 1 := by
  rw [cntFrom_eq_succ cs E c hcs h1]
  have : ((E - c).toNat - 1) / cs.toNat = 0 := Nat.div_eq_of_lt (by omega)
  omega

lemma cntFrom_step (cs E c : Int) (hcs : 1 ≤ cs) (h : c + cs < E) :
    cntFrom cs E c = cntFrom cs E (c + cs) + 1 := by
  have hk : 0 < cs.toNat := by omega
  rw [cntFrom_eq_succ cs E c hcs (by omega), cntFrom_eq_succ cs E (c + cs) hcs h]
  have heq : (E - c).toNat - 1 = ((E - (c + cs)).toNat - 1) + cs.toNat := by omega
  rw [heq, Nat.add_div_right _ hk]

lemma cntFrom_pos (cs E c : Int) (hcs : 1 ≤ cs) (h : c < E) : 0 < cntFrom cs E c := by
  rw [cntFrom_eq_succ cs E c hcs h]
  exact Nat.succ_pos _

lemma chunkAt_shift (tmpl : SeqTask) (name : String) (cs E c : Int) (i : Nat) :
    chunkAt tmpl name cs E c (i + 1) = chunkAt tmpl name cs E (c + cs) i := by
  have hs : c + 1 + ((i + 1 : Nat) : Int) * cs = c + cs + 1 + (i : Int) * cs := by
    push_cast; ring
  simp only [chunkAt]
  rw [hs]

lemma chunkAt_congr_tmpl (t1 t2 : SeqTask) (h1 : t1.chunk_size = t2.chunk_size)
    (h2 : t1.temp_dir = t2.temp_dir)
    (h3 : t1.command_line_executable = t2.command_line_executable)
    (h4 : t1.command_line_executable_args = t2.command_line_executable_args)
    (name : String) (cs E c : Int) (i : Nat) :
    chunkAt t1 name cs E c i = chunkAt t2 name cs E c i := by
  cases t1; cases t2
  simp_all [chunkAt]

lemma stepTask_eq_chunkAt_zero (name : String) (E : Int) (t : SeqTask) :
    stepTask name E t = chunkAt t name t.chunk_size E t.end_frame 0 := by
  simp [stepTask, chunkAt]

lemma stepTask_end_frame (name : String) (E : Int) (t : SeqTask) :
    (stepTask name E t).end_frame = min (t.end_frame + t.chunk_size) E := by
  have : t.end_frame + 1 + t.chunk_size - 1 = t.end_frame + t.chunk_size := by ring
  simp [stepTask, this]

lemma restore_fields {t t'' : SeqTask} (h1 : t''.chunk_size = t.chunk_size)
    (h2 : t''.temp_dir = t.temp_dir)
    (h3 : t''.command_line_executable = t.command_line_executable)
    (h4 : t''.command_line_executable_args = t.command_line_executable_args) :
    { t'' with
      start_frame := t.start_frame,
      end_frame := t.end_frame,
      name := t.name } = t := by
  cases t; cases t''
  simp_all

/-- When every per-chunk export succeeds, the loop from cursor
`t.end_frame` returns the accumulated artifacts followed by one artifact
per chunk in ascending order, and a final instance agreeing with `t` on the
fields the loop never writes. -/
lemma exportLoop_ok {ε α : Type} (f : SeqTask → α) (name : String) (E : Int) :
    ∀ (fuel : Nat) (t : SeqTask) (acc : List α),
      1 ≤ t.chunk_size → (E - t.end_frame).toNat ≤ fuel →
      ∃ t' : SeqTask,
        exportLoop (fun c => (Except.ok (f c) : Except ε α)) name E fuel t acc
          = .ok (acc ++ (List.range (cntFrom t.chunk_size E t.end_frame)).map
              (fun i => f (chunkAt t name t.chunk_size E t.end_frame i)), t')
        ∧ t'.chunk_size = t.chunk_size ∧ t'.temp_dir = t.temp_dir
        ∧ t'.command_line_executable = t.command_line_executable
        ∧ t'.command_line_executable_args = t.command_line_executable_args := by
  intro fuel
  induction fuel with
  | zero =>
    intro t acc hcs hfuel
    refine ⟨t, ?_, rfl, rfl, rfl, rfl⟩
    have h0 : ¬ t.end_frame < E := by omega
    rw [cntFrom_zero _ _ _ hcs h0]
    simp [exportLoop]
  | succ fuel ih =>
    intro t acc hcs hfuel
    by_cases hlt : t.end_frame < E
    · have hstep : exportLoop (fun c => (Except.ok (f c) : Except ε α)) name E
          (fuel + 1) t acc
          = exportLoop (fun c => (Except.ok (f c) : Except ε α)) name E fuel
              (stepTask name E t) (acc ++ [f (stepTask name E t)]) := by
        simp [exportLoop, hlt]
      have hcs1 : 1 ≤ (stepTask name E t).chunk_size := hcs
      have hend1 : t.end_frame + 1 ≤ (stepTask name E t).end_frame := by
        rw [stepTask_end_frame]
        exact le_min (by omega) (by omega)
      have hfuel1 : (E - (stepTask name E t).end_frame).toNat ≤ fuel := by
        have hle : (stepTask name E t).end_frame ≤ E := by
          rw [stepTask_end_frame]; exact min_le_right _ _
        omega
      obtain ⟨t'', hloop, hf1, hf2, hf3, hf4⟩ :=
        ih (stepTask name E t) (acc ++ [f (stepTask name E t)]) hcs1 hfuel1
      refine ⟨t'', ?_, hf1, hf2, hf3, hf4⟩
      rw [hstep, hloop]
      have hchunk0 : stepTask name E t = chunkAt t name t.chunk_size E t.end_frame 0 :=
        stepTask_eq_chunkAt_zero name E t
      have htmpl : ∀ (cs c : Int) (i : Nat),
          chunkAt (stepTask name E t) name cs E c i = chunkAt t name cs E c i :=
        fun cs c i => chunkAt_congr_tmpl (stepTask name E t) t rfl rfl rfl rfl name cs E c i
      by_cases hcase : E ≤ t.end_frame + t.chunk_size
      · -- last iteration: the new cursor reaches E
        have hendE : (stepTask name E t).end_frame = E := by
          rw [stepTask_end_frame]
          exact min_eq_right hcase
        have hn1 : cntFrom (stepTask name E t).chunk_size E
            (stepTask name E t).end_frame = 0 := by
          rw [hendE]
          exact cntFrom_zero _ _ _ hcs (lt_irrefl E)
        have hn0 : cntFrom t.chunk_size E t.end_frame = 1 :=
          cntFrom_one _ _ _ hcs hlt hcase
        rw [hn1, hn0, show List.range 1 = [0] from rfl]
        simp [hchunk0]
      · push_neg at hcase
        have hendC : (stepTask name E t).end_frame = t.end_frame + t.chunk_size := by
          rw [stepTask_end_frame]
          exact min_eq_left (by omega)
        have hn0 : cntFrom t.chunk_size E t.end_frame
            = cntFrom t.chunk_size E (t.end_frame + t.chunk_size) + 1 :=
          cntFrom_step _ _ _ hcs hcase
        have hshift : ∀ i : Nat,
            chunkAt t name t.chunk_size E t.end_frame (i + 1)
              = chunkAt t name t.chunk_size E (t.end_frame + t.chunk_size) i :=
          fun i => chunkAt_shift t name t.chunk_size E t.end_frame i
        rw [hn0, List.range_succ_eq_map]
        congr 1
        rw [List.map_cons, List.map_map]
        have hmap : (List.range (cntFrom t.chunk_size E (t.end_frame + t.chunk_size))).map
              ((fun i => f (chunkAt t name t.chunk_size E t.end_frame i)) ∘ Nat.succ)
            = (List.range (cntFrom (stepTask name E t).chunk_size E
                (stepTask name E t).end_frame)).map
              (fun i => f (chunkAt (stepTask name E t) name
                (stepTask name E t).chunk_size E (stepTask name E t).end_frame i)) := by
          rw [show (stepTask name E t).chunk_size = t.chunk_size from rfl, hendC]
          refine List.map_congr_left ?_
          intro i _
          simp only [Function.comp_apply, Nat.succ_eq_add_one]
          rw [hshift i, htmpl]
        rw [hmap]
        simp [hchunk0]
    · refine ⟨t, ?_, rfl, rfl, rfl, rfl⟩
      rw [cntFrom_zero _ _ _ hcs hlt]
      simp [exportLoop, hlt]

/-- When the loop fails, it fails at the first chunk whose export raises,
and the returned instance is exactly that chunk. -/
lemma exportLoop_error {ε α : Type} (exportFn : SeqTask → Except ε α)
    (name : String) (E : Int) :
    ∀ (fuel : Nat) (t : SeqTask) (acc : List α) (err : ε) (t'' : SeqTask),
      1 ≤ t.chunk_size → (E - t.end_frame).toNat ≤ fuel →
      exportLoop exportFn name E fuel t acc = .error (err, t'') →
      ∃ i : Nat, i < cntFrom t.chunk_size E t.end_frame
        ∧ t'' = chunkAt t name t.chunk_size E t.end_frame i
        ∧ exportFn (chunkAt t name t.chunk_size E t.end_frame i) = .error err
        ∧ ∀ j : Nat, j < i →
            ∃ a, exportFn (chunkAt t name t.chunk_size E t.end_frame j) = .ok a := by
  intro fuel
  induction fuel with
  | zero =>
    intro t acc err t'' hcs hfuel he
    rw [exportLoop] at he
    exact absurd he (by simp)
  | succ fuel ih =>
    intro t acc err t'' hcs hfuel he
    by_cases hlt : t.end_frame < E
    · rw [exportLoop, if_pos hlt] at he
      have hchunk0 : stepTask name E t = chunkAt t name t.chunk_size E t.end_frame 0 :=
        stepTask_eq_chunkAt_zero name E t
      cases hfn : exportFn (stepTask name E t) with
      | error e0 =>
        rw [hfn] at he
        injection he with hpair
        injection hpair with he1 he2
        refine ⟨0, cntFrom_pos _ _ _ hcs hlt, ?_, ?_, by omega⟩
        · rw [← he2, hchunk0]
        · rw [← hchunk0, hfn, he1]
      | ok a0 =>
        rw [hfn] at he
        have hcs1 : 1 ≤ (stepTask name E t).chunk_size := hcs
        have hend1 : t.end_frame + 1 ≤ (stepTask name E t).end_frame := by
          rw [stepTask_end_frame]
          exact le_min (by omega) (by omega)
        have hfuel1 : (E - (stepTask name E t).end_frame).toNat ≤ fuel := by
          have hle : (stepTask name E t).end_frame ≤ E := by
            rw [stepTask_end_frame]; exact min_le_right _ _
          omega
        obtain ⟨i', hi', ht'', hfn', hprev⟩ :=
          ih (stepTask name E t) (acc ++ [a0]) err t'' hcs1 hfuel1 he
        have htmpl : ∀ (cs c : Int) (i : Nat),
            chunkAt (stepTask name E t) name cs E c i = chunkAt t name cs E c i :=
          fun cs c i => chunkAt_congr_tmpl (stepTask name E t) t rfl rfl rfl rfl name cs E c i
        by_cases hcase : E ≤ t.end_frame + t.chunk_size
        · exfalso
          have hendE : (stepTask name E t).end_frame = E := by
            rw [stepTask_end_frame]
            exact min_eq_right hcase
          rw [show (stepTask name E t).chunk_size = t.chunk_size from rfl, hendE,
            cntFrom_zero _ _ _ hcs (lt_irrefl E)] at hi'
          omega
        · push_neg at hcase
          have hendC : (stepTask name E t).end_frame = t.end_frame + t.chunk_size := by
            rw [stepTask_end_frame]
            exact min_eq_left (by omega)
          have hshift : ∀ i : Nat,
              chunkAt t name t.chunk_size E t.end_frame (i + 1)
                = chunkAt t name t.chunk_size E (t.end_frame + t.chunk_size) i :=
            fun i => chunkAt_shift t name t.chunk_size E t.end_frame i
          have hrw : ∀ i : Nat,
              chunkAt (stepTask name E t) name (stepTask name E t).chunk_size E
                (stepTask name E t).end_frame i
                = chunkAt t name t.chunk_size E t.end_frame (i + 1) := by
            intro i
            rw [show (stepTask name E t).chunk_size = t.chunk_size from rfl, hendC,
              htmpl, hshift i]
          refine ⟨i' + 1, ?_, ?_, ?_, ?_⟩
          · rw [cntFrom_step _ _ _ hcs hcase]
            rw [show (stepTask name E t).chunk_size = t.chunk_size from rfl, hendC] at hi'
            omega
          · rw [ht'', hrw]
          · rw [← hrw, hfn']
          · intro j hj
            cases j with
            | zero => exact ⟨a0, by rw [← hchunk0, hfn]⟩
            | succ j' =>
              have hj' : j' < i' := by omega
              obtain ⟨a, ha⟩ := hprev j' hj'
              exact ⟨a, by rw [← hrw, ha]⟩
    · rw [exportLoop, if_neg hlt] at he
      exact absurd he (by simp)

/-! ## Arithmetic facts about the chunks -/

lemma numChunks_eq_cntFrom (t : SeqTask) :
    numChunks t = cntFrom t.chunk_size t.end_frame (t.start_frame - 1) := by
  rw [numChunks, cntFrom]
  have h : t.end_frame - (t.start_frame - 1) = t.end_frame - t.start_frame + 1 := by
    ring
  rw [h]

lemma numChunks_formula (t : SeqTask) (hcs : 0 < t.chunk_size)
    (hse : t.start_frame ≤ t.end_frame) :
    numChunks t
      = ((t.end_frame - t.start_frame + 1).toNat - 1) / t.chunk_size.toNat + 1 := by
  rw [numChunks_eq_cntFrom, cntFrom_eq_succ _ _ _ (by omega) (by omega)]
  have h : t.end_frame - (t.start_frame - 1) = t.end_frame - t.start_frame + 1 := by
    ring
  rw [h]

lemma numChunks_pos (t : SeqTask) (hcs : 0 < t.chunk_size)
    (hse : t.start_frame ≤ t.end_frame) : 0 < numChunks t := by
  rw [numChunks_formula t hcs hse]
  exact Nat.succ_pos _

lemma mkChunk_start (t : SeqTask) (i : Nat) :
    (mkChunk t i).start_frame = t.start_frame + (i : Int) * t.chunk_size := by
  simp only [mkChunk, chunkAt]
  ring

lemma mkChunk_end (t : SeqTask) (i : Nat) :
    (mkChunk t i).end_frame
      = min (t.start_frame + (i : Int) * t.chunk_size + t.chunk_size - 1)
          t.end_frame := by
  simp only [mkChunk, chunkAt]
  congr 1
  ring

lemma mkChunk_name (t : SeqTask) (i : Nat) :
    (mkChunk t i).name
      = t.name ++ "_" ++ toString (mkChunk t i).start_frame
          ++ "-" ++ toString (mkChunk t i).end_frame := rfl

lemma chunk_index_mul_le (t : SeqTask) (hcs : 0 < t.chunk_size)
    (hse : t.start_frame ≤ t.end_frame) {i : Nat} (hi : i < numChunks t) :
    (i : Int) * t.chunk_size ≤ t.end_frame - t.start_frame := by
  have hk : 0 < t.chunk_size.toNat := by omega
  have hm1 : 1 ≤ (t.end_frame - t.start_frame + 1).toNat := by omega
  have h1 : i ≤ ((t.end_frame - t.start_frame + 1).toNat - 1) / t.chunk_size.toNat := by
    have := numChunks_formula t hcs hse
    omega
  have h2 : i * t.chunk_size.toNat
      ≤ (t.end_frame - t.start_frame + 1).toNat - 1 :=
    (Nat.le_div_iff_mul_le hk).mp h1
  have h3 : ((i * t.chunk_size.toNat : Nat) : Int)
      ≤ (((t.end_frame - t.start_frame + 1).toNat - 1 : Nat) : Int) := by
    exact_mod_cast h2
  rw [Nat.cast_sub hm1] at h3
  push_cast at h3
  rw [Int.toNat_of_nonneg (by omega : (0:Int) ≤ t.end_frame - t.start_frame + 1),
    Int.toNat_of_nonneg (by omega : (0:Int) ≤ t.chunk_size)] at h3
  linarith

lemma numChunks_mul_ge (t : SeqTask) (hcs : 0 < t.chunk_size)
    (hse : t.start_frame ≤ t.end_frame) :
    t.end_frame - t.start_frame + 1 ≤ (numChunks t : Int) * t.chunk_size := by
  have hk : 0 < t.chunk_size.toNat := by omega
  have hm1 : 1 ≤ (t.end_frame - t.start_frame + 1).toNat := by omega
  have hNat : (t.end_frame - t.start_frame + 1).toNat
      ≤ numChunks t * t.chunk_size.toNat := by
    rw [numChunks_formula t hcs hse, add_mul, one_mul, Nat.mul_comm
      (((t.end_frame - t.start_frame + 1).toNat - 1) / t.chunk_size.toNat)
      t.chunk_size.toNat]
    have hdm := Nat.div_add_mod ((t.end_frame - t.start_frame + 1).toNat - 1)
      t.chunk_size.toNat
    have hr := Nat.mod_lt ((t.end_frame - t.start_frame + 1).toNat - 1) hk
    omega
  have h2 : ((t.end_frame - t.start_frame + 1).toNat : Int)
      ≤ ((numChunks t * t.chunk_size.toNat : Nat) : Int) := by exact_mod_cast hNat
  push_cast at h2
  rw [Int.toNat_of_nonneg (by omega : (0:Int) ≤ t.end_frame - t.start_frame + 1),
    Int.toNat_of_nonneg (by omega : (0:Int) ≤ t.chunk_size)] at h2
  exact h2

lemma numChunks_pred_mul_lt (t : SeqTask) (hcs : 0 < t.chunk_size)
    (hse : t.start_frame ≤ t.end_frame) :
    (numChunks t - 1) * t.chunk_size.toNat
      < (t.end_frame - t.start_frame + 1).toNat := by
  have hk : 0 < t.chunk_size.toNat := by omega
  have hm1 : 1 ≤ (t.end_frame - t.start_frame + 1).toNat := by omega
  rw [numChunks_formula t hcs hse]
  simp only [Nat.add_sub_cancel]
  have hle := Nat.div_mul_le_self
    ((t.end_frame - t.start_frame + 1).toNat - 1) t.chunk_size.toNat
  omega

lemma mkChunk_last_end (t : SeqTask) (hcs : 0 < t.chunk_size)
    (hse : t.start_frame ≤ t.end_frame) :
    (mkChunk t (numChunks t - 1)).end_frame = t.end_frame := by
  rw [mkChunk_end]
  refine min_eq_right ?_
  have hge := numChunks_mul_ge t hcs hse
  have hn1 : 1 ≤ numChunks t := numChunks_pos t hcs hse
  have hc : ((numChunks t - 1 : Nat) : Int) = (numChunks t : Int) - 1 := by
    rw [Nat.cast_sub hn1]
    simp
  rw [hc]
  have hring : ((numChunks t : Int) - 1) * t.chunk_size + t.chunk_size
      = (numChunks t : Int) * t.chunk_size := by ring
  linarith

lemma mkChunk_start_le_end (t : SeqTask) (hcs : 0 < t.chunk_size)
    (hse : t.start_frame ≤ t.end_frame) {i : Nat} (hi : i < numChunks t) :
    (mkChunk t i).start_frame ≤ (mkChunk t i).end_frame := by
  rw [mkChunk_start, mkChunk_end]
  refine le_min (by linarith) ?_
  have := chunk_index_mul_le t hcs hse hi
  linarith

lemma mkChunk_contiguous (t : SeqTask) (hcs : 0 < t.chunk_size)
    (hse : t.start_frame ≤ t.end_frame) {i : Nat} (hi : i + 1 < numChunks t) :
    (mkChunk t (i + 1)).start_frame = (mkChunk t i).end_frame + 1 := by
  have hnext := chunk_index_mul_le t hcs hse hi
  have hcast : ((i + 1 : Nat) : Int) = (i : Int) + 1 := by push_cast; ring
  rw [mkChunk_start, mkChunk_end, hcast]
  have hmin : min (t.start_frame + (i : Int) * t.chunk_size + t.chunk_size - 1)
      t.end_frame
      = t.start_frame + (i : Int) * t.chunk_size + t.chunk_size - 1 := by
    refine min_eq_left ?_
    rw [hcast] at hnext
    linarith [hnext]
  rw [hmin]
  ring

/-! ## Claim theorems: python-script export (Chunking Engine) -/

/-- C1: with `chunk_size > 0` and `0 ≤ start_frame ≤ end_frame`,
`export_to_python_script` exports exactly
`⌈(end_frame - start_frame + 1) / chunk_size⌉` chunks (the per-chunk
base-class exporter is abstracted as `f`); the `i`-th chunk starts at
`start_frame + i·chunk_size`, chunks are non-empty, of size at most
`chunk_size`, contained in `[start_frame, end_frame]`, contiguous and in
ascending order, the first starts at `start_frame`, the last ends at
`end_frame`, and each is named
`"{name}_{chunkStart}-{chunkEnd}"`. -/
theorem claim_C1_chunking {α : Type} (f : SeqTask → α) (t : SeqTask)
    (hcs : 0 < t.chunk_size) (_h0 : 0 ≤ t.start_frame)
    (hse : t.start_frame ≤ t.end_frame) :
    export_to_python_script (fun c => (Except.ok (f c) : Except Unit α)) t
      = .ok (.multi ((List.range (numChunks t)).map (fun i => f (mkChunk t i))), t)
    ∧ numChunks t
        = ((t.end_frame - t.start_frame + 1).toNat + t.chunk_size.toNat - 1)
            / t.chunk_size.toNat
    ∧ t.end_frame - t.start_frame + 1 ≤ (numChunks t : Int) * t.chunk_size
    ∧ (numChunks t - 1) * t.chunk_size.toNat
        < (t.end_frame - t.start_frame + 1).toNat
    ∧ 0 < numChunks t
    ∧ (mkChunk t 0).start_frame = t.start_frame
    ∧ (mkChunk t (numChunks t - 1)).end_frame = t.end_frame
    ∧ (∀ i : Nat, i < numChunks t →
        (mkChunk t i).start_frame = t.start_frame + (i : Int) * t.chunk_size
        ∧ (mkChunk t i).start_frame ≤ (mkChunk t i).end_frame
        ∧ (mkChunk t i).end_frame - (mkChunk t i).start_frame + 1 ≤ t.chunk_size
        ∧ t.start_frame ≤ (mkChunk t i).start_frame
        ∧ (mkChunk t i).end_frame ≤ t.end_frame
        ∧ (mkChunk t i).name
            = t.name ++ "_" ++ toString (mkChunk t i).start_frame
                ++ "-" ++ toString (mkChunk t i).end_frame)
    ∧ (∀ i : Nat, i + 1 < numChunks t →
        (mkChunk t (i + 1)).start_frame = (mkChunk t i).end_frame + 1) := by
  refine ⟨?_, rfl, numChunks_mul_ge t hcs hse, numChunks_pred_mul_lt t hcs hse,
    numChunks_pos t hcs hse, ?_, mkChunk_last_end t hcs hse, ?_, ?_⟩
  · -- the export itself
    obtain ⟨t'', hloop, hf1, hf2, hf3, hf4⟩ :=
      exportLoop_ok (ε := Unit) f t.name t.end_frame
        ((t.end_frame - (t.start_frame - 1)).toNat)
        { t with end_frame := t.start_frame - 1 } []
        (by show (1:Int) ≤ t.chunk_size; omega) (le_refl _)
    have hlist : ([] : List α)
          ++ (List.range (cntFrom ({ t with end_frame := t.start_frame - 1} : SeqTask).chunk_size
              t.end_frame ({ t with end_frame := t.start_frame - 1} : SeqTask).end_frame)).map
            (fun i => f (chunkAt { t with end_frame := t.start_frame - 1} t.name
              ({ t with end_frame := t.start_frame - 1} : SeqTask).chunk_size t.end_frame
              ({ t with end_frame := t.start_frame - 1} : SeqTask).end_frame i))
        = (List.range (numChunks t)).map (fun i => f (mkChunk t i)) := by
      rw [List.nil_append,
        show ({ t with end_frame := t.start_frame - 1} : SeqTask).chunk_size
          = t.chunk_size from rfl,
        show ({ t with end_frame := t.start_frame - 1} : SeqTask).end_frame
          = t.start_frame - 1 from rfl,
        (numChunks_eq_cntFrom t).symm]
      refine List.map_congr_left ?_
      intro i _
      rw [mkChunk]
      exact congrArg f (chunkAt_congr_tmpl { t with end_frame := t.start_frame - 1 }
        t rfl rfl rfl rfl t.name t.chunk_size t.end_frame (t.start_frame - 1) i)
    rw [hlist] at hloop
    rw [export_to_python_script, if_neg (by omega : ¬ t.chunk_size = 0), hloop]
    simp only []
    have hrestore : ({ t'' with
        start_frame := t.start_frame,
        end_frame := t.end_frame,
        name := t.name } : SeqTask) = t :=
      restore_fields hf1 hf2 hf3 hf4
    rw [hrestore]
  · rw [mkChunk_start]
    simp
  · intro i hi
    exact ⟨mkChunk_start t i, mkChunk_start_le_end t hcs hse hi,
      by rw [mkChunk_start, mkChunk_end]
         have := min_le_left (t.start_frame + (i : Int) * t.chunk_size
           + t.chunk_size - 1) t.end_frame
         linarith,
      by rw [mkChunk_start]
         have : (0:Int) ≤ (i : Int) * t.chunk_size :=
           mul_nonneg (Int.natCast_nonneg i) (by omega)
         linarith,
      by rw [mkChunk_end]; exact min_le_right _ _,
      mkChunk_name t i⟩
  · intro i hi
    exact mkChunk_contiguous t hcs hse hi

/-- Witness for C1 at the test scenario (frames 10–25, chunk size 8,
chunks `[10,17]` and `[18,25]`). -/
theorem claim_C1_chunking_witness :
    export_to_python_script
        (fun c => (Except.ok ((fun c : SeqTask => c) c) : Except Unit SeqTask))
        sampleTask
      = .ok (.multi ((List.range (numChunks sampleTask)).map
          (fun i => (fun c : SeqTask => c) (mkChunk sampleTask i))), sampleTask)
    ∧ numChunks sampleTask
        = ((sampleTask.end_frame - sampleTask.start_frame + 1).toNat
              + sampleTask.chunk_size.toNat - 1) / sampleTask.chunk_size.toNat
    ∧ sampleTask.end_frame - sampleTask.start_frame + 1
        ≤ (numChunks sampleTask : Int) * sampleTask.chunk_size
    ∧ (numChunks sampleTask - 1) * sampleTask.chunk_size.toNat
        < (sampleTask.end_frame - sampleTask.start_frame + 1).toNat
    ∧ 0 < numChunks sampleTask
    ∧ (mkChunk sampleTask 0).start_frame = sampleTask.start_frame
    ∧ (mkChunk sampleTask (numChunks sampleTask - 1)).end_frame
        = sampleTask.end_frame
    ∧ (∀ i : Nat, i < numChunks sampleTask →
        (mkChunk sampleTask i).start_frame
            = sampleTask.start_frame + (i : Int) * sampleTask.chunk_size
        ∧ (mkChunk sampleTask i).start_frame ≤ (mkChunk sampleTask i).end_frame
        ∧ (mkChunk sampleTask i).end_frame - (mkChunk sampleTask i).start_frame + 1
            ≤ sampleTask.chunk_size
        ∧ sampleTask.start_frame ≤ (mkChunk sampleTask i).start_frame
        ∧ (mkChunk sampleTask i).end_frame ≤ sampleTask.end_frame
        ∧ (mkChunk sampleTask i).name
            = sampleTask.name ++ "_" ++ toString (mkChunk sampleTask i).start_frame
                ++ "-" ++ toString (mkChunk sampleTask i).end_frame)
    ∧ (∀ i : Nat, i + 1 < numChunks sampleTask →
        (mkChunk sampleTask (i + 1)).start_frame
          = (mkChunk sampleTask i).end_frame + 1) :=
  claim_C1_chunking (fun c => c) sampleTask (by decide) (by decide) (by decide)

/-- C5: with `chunk_size > 0`, when `export_to_python_script` returns
normally the parent instance's `start_frame`, `end_frame` and `name` equal
their pre-call values (mutate-then-restore). -/
theorem claim_C5_parent_restored {ε α : Type} (exportFn : SeqTask → Except ε α)
    (t : SeqTask) (hcs : 0 < t.chunk_size) (r : PyExport α) (t' : SeqTask)
    (hok : export_to_python_script exportFn t = .ok (r, t')) :
    t'.start_frame = t.start_frame ∧ t'.end_frame = t.end_frame
      ∧ t'.name = t.name := by
  rw [export_to_python_script, if_neg (by omega : ¬ t.chunk_size = 0)] at hok
  cases hloop : exportLoop exportFn t.name t.end_frame
      (t.end_frame - (t.start_frame - 1)).toNat
      { t with end_frame := t.start_frame - 1 } [] with
  | error p =>
    rw [hloop] at hok
    obtain ⟨err, t2⟩ := p
    exact absurd hok (by simp)
  | ok p =>
    rw [hloop] at hok
    obtain ⟨tasks, t2⟩ := p
    simp only [Except.ok.injEq, Prod.mk.injEq] at hok
    obtain ⟨-, ht'⟩ := hok
    rw [← ht']
    exact ⟨rfl, rfl, rfl⟩

/-- Witness for C5 at the test scenario. -/
theorem claim_C5_parent_restored_witness :
    sampleTask.start_frame = sampleTask.start_frame
    ∧ sampleTask.end_frame = sampleTask.end_frame
    ∧ sampleTask.name = sampleTask.name :=
  claim_C5_parent_restored exportNameFn sampleTask (by decide)
    (.multi ["Task1_10-17", "Task1_18-25"]) sampleTask (by rfl)

/-- C9: with `chunk_size == 0`, `export_to_python_script` performs no
splitting: it delegates to the base-class export on the unchanged instance
and yields exactly one artifact, whatever the frame range. -/
theorem claim_C9_chunk_size_zero {α : Type} (f : SeqTask → α) (t : SeqTask)
    (hcs : t.chunk_size = 0) :
    export_to_python_script (fun c => (Except.ok (f c) : Except Unit α)) t
      = .ok (.single (f t), t)
    ∧ (PyExport.single (f t)).artifactCount = 1 := by
  constructor
  · rw [export_to_python_script, if_pos hcs]
  · rfl

/-- Witness for C9 at the test scenario with `chunk_size = 0`. -/
theorem claim_C9_chunk_size_zero_witness :
    export_to_python_script
        (fun c => (Except.ok ((fun c : SeqTask => c.name) c) : Except Unit String))
        zeroChunkTask
      = .ok (.single zeroChunkTask.name, zeroChunkTask)
    ∧ (PyExport.single zeroChunkTask.name).artifactCount = 1 :=
  claim_C9_chunk_size_zero (fun c => c.name) zeroChunkTask (by decide)

/-- C10: when the per-chunk base-class export raises, the exception
propagates out of `export_to_python_script` without the restore step: the
parent instance is left holding exactly the failing chunk's narrowed
sub-range and suffixed name (every earlier chunk having exported
successfully). -/
theorem claim_C10_no_restore_on_error {ε α : Type}
    (exportFn : SeqTask → Except ε α) (t : SeqTask)
    (hcs : 0 < t.chunk_size) (_h0 : 0 ≤ t.start_frame)
    (hse : t.start_frame ≤ t.end_frame) (err : ε) (t' : SeqTask)
    (he : export_to_python_script exportFn t = .error (err, t')) :
    ∃ i : Nat, i < numChunks t ∧ t' = mkChunk t i
      ∧ exportFn (mkChunk t i) = .error err
      ∧ (∀ j : Nat, j < i → ∃ a, exportFn (mkChunk t j) = .ok a)
      ∧ t'.name = t.name ++ "_" ++ toString t'.start_frame
          ++ "-" ++ toString t'.end_frame
      ∧ t.start_frame ≤ t'.start_frame ∧ t'.start_frame ≤ t'.end_frame
      ∧ t'.end_frame ≤ t.end_frame := by
  rw [export_to_python_script, if_neg (by omega : ¬ t.chunk_size = 0)] at he
  cases hloop : exportLoop exportFn t.name t.end_frame
      (t.end_frame - (t.start_frame - 1)).toNat
      { t with end_frame := t.start_frame - 1 } [] with
  | ok p =>
    rw [hloop] at he
    obtain ⟨tasks, t2⟩ := p
    exact absurd he (by simp)
  | error p =>
    rw [hloop] at he
    obtain ⟨err2, t2⟩ := p
    simp only [Except.error.injEq, Prod.mk.injEq] at he
    obtain ⟨herr, ht'⟩ := he
    obtain ⟨i, hi, ht2, hfn, hprev⟩ :=
      exportLoop_error exportFn t.name t.end_frame _
        { t with end_frame := t.start_frame - 1 } [] err2 t2
        (by show (1:Int) ≤ t.chunk_size; omega) (le_refl _) hloop
    have hchunk : ∀ j : Nat,
        chunkAt { t with end_frame := t.start_frame - 1 } t.name
          ({ t with end_frame := t.start_frame - 1 } : SeqTask).chunk_size
          t.end_frame
          ({ t with end_frame := t.start_frame - 1 } : SeqTask).end_frame j
          = mkChunk t j := by
      intro j
      rw [mkChunk]
      exact chunkAt_congr_tmpl { t with end_frame := t.start_frame - 1 } t
        rfl rfl rfl rfl t.name t.chunk_size t.end_frame (t.start_frame - 1) j
    have hcnt : cntFrom ({ t with end_frame := t.start_frame - 1 } : SeqTask).chunk_size
        t.end_frame ({ t with end_frame := t.start_frame - 1 } : SeqTask).end_frame
        = numChunks t := (numChunks_eq_cntFrom t).symm
    rw [hcnt] at hi
    rw [hchunk i] at ht2 hfn
    have ht'chunk : t' = mkChunk t i := by rw [← ht', ht2]
    refine ⟨i, hi, ht'chunk, by rw [← herr]; exact hfn, ?_, ?_, ?_, ?_, ?_⟩
    · intro j hj
      obtain ⟨a, ha⟩ := hprev j hj
      rw [hchunk j] at ha
      exact ⟨a, ha⟩
    · rw [ht'chunk]
      exact mkChunk_name t i
    · rw [ht'chunk, mkChunk_start]
      have : (0:Int) ≤ (i : Int) * t.chunk_size :=
        mul_nonneg (Int.natCast_nonneg i) (by omega)
      linarith
    · rw [ht'chunk]
      exact mkChunk_start_le_end t hcs hse hi
    · rw [ht'chunk, mkChunk_end]
      exact min_le_right _ _

/-- Witness for C10: the base export fails on the second chunk
(`[18,25]`) of the test scenario; the instance is left as that chunk. -/
theorem claim_C10_no_restore_on_error_witness :
    ∃ i : Nat, i < numChunks sampleTask
      ∧ ({ sampleTask with
            start_frame := 18, end_frame := 25,
            name := "Task1_18-25" } : SeqTask) = mkChunk sampleTask i
      ∧ exportFailAt18Fn (mkChunk sampleTask i) = .error ()
      ∧ (∀ j : Nat, j < i → ∃ a, exportFailAt18Fn (mkChunk sampleTask j) = .ok a)
      ∧ ({ sampleTask with
            start_frame := 18, end_frame := 25,
            name := "Task1_18-25" } : SeqTask).name
          = sampleTask.name
            ++ "_" ++ toString ({ sampleTask with
                start_frame := 18, end_frame := 25,
                name := "Task1_18-25" } : SeqTask).start_frame
            ++ "-" ++ toString ({ sampleTask with
                start_frame := 18, end_frame := 25,
                name := "Task1_18-25" } : SeqTask).end_frame
      ∧ sampleTask.start_frame
          ≤ ({ sampleTask with
              start_frame := 18, end_frame := 25,
              name := "Task1_18-25" } : SeqTask).start_frame
      ∧ ({ sampleTask with
            start_frame := 18, end_frame := 25,
            name := "Task1_18-25" } : SeqTask).start_frame
          ≤ ({ sampleTask with
              start_frame := 18, end_frame := 25,
              name := "Task1_18-25" } : SeqTask).end_frame
      ∧ ({ sampleTask with
            start_frame := 18, end_frame := 25,
            name := "Task1_18-25" } : SeqTask).end_frame ≤ sampleTask.end_frame :=
  claim_C10_no_restore_on_error exportFailAt18Fn sampleTask (by decide)
    (by decide) (by decide) ()
    { sampleTask with
      start_frame := 18, end_frame := 25, name := "Task1_18-25" } (by rfl)

end Wolfkrow
